import Mathlib

/-!
Verification of the MCP SDK core specification against a shallow embedding
of the code of the repository.  Each section embeds one component: feature
registries, tool dispatch, the streamable POST stream, JSON-RPC batching,
SSE event ids, elicitation schema validation, the initialization gate,
stored session info serialisation, and the in-memory session store.
-/

namespace MCP

/-! ## Feature registries -/

/-- Modelled from the spec: a feature registry (tools, prompts, resources,
roots — the registry implementation is not under src, only its tests) is an
insertion-ordered mapping from name/URI to a feature descriptor.  Adding an
entry with an existing key replaces that entry in place, preserving its
position; adding a new key appends at the end. -/
def fsAdd : List (String × α) → String → α → List (String × α)
  | [], k, v => [(k, v)]
  | p :: ps, k, v => if p.1 == k then (k, v) :: ps else p :: fsAdd ps k v

/-- Modelled from the spec: removing a feature deletes the entry with that
key, keeping every other entry in order. -/
def fsRemove (fs : List (String × α)) (k : String) : List (String × α) :=
  fs.filter (fun p => !(p.1 == k))

/-- The iteration order of a registry: its keys, in insertion order. -/
def fsKeys (fs : List (String × α)) : List String := fs.map Prod.fst

/-- Listing a feature by key: the first (and, by the registry invariant,
only) entry with that key. -/
def fsLookup (fs : List (String × α)) (k : String) : Option α :=
  (fs.find? (fun p => p.1 == k)).map Prod.snd

/-- Number of entries carrying key k. -/
def fsCountKey (fs : List (String × α)) (k : String) : Nat :=
  fs.countP (fun p => p.1 == k)

/-- A mutation of a feature registry. -/
inductive FeatureOp (α : Type) where
  | add (k : String) (v : α)
  | remove (k : String)

/-- Apply a sequence of Add/Remove mutations to a registry. -/
def fsApply (fs : List (String × α)) : List (FeatureOp α) → List (String × α)
  | [] => fs
  | FeatureOp.add k v :: ops => fsApply (fsAdd fs k v) ops
  | FeatureOp.remove k :: ops => fsApply (fsRemove fs k) ops

theorem fsKeys_fsAdd_of_mem {fs : List (String × α)} {k : String} (v : α)
    (h : k ∈ fsKeys fs) : fsKeys (fsAdd fs k v) = fsKeys fs := by
  induction fs with
  | nil => simp [fsKeys] at h
  | cons p ps ih =>
    by_cases hk : p.1 = k
    · simp [fsAdd, hk, fsKeys]
    · have hmem : k ∈ fsKeys ps := by
        rcases (by simpa [fsKeys] using h : k = p.1 ∨ k ∈ List.map Prod.fst ps) with h1 | h2
        · exact absurd h1.symm hk
        · exact h2
      have hbeq : (p.1 == k) = false := by simp [hk]
      have ih2 := ih hmem
      simp only [fsAdd, hbeq, Bool.false_eq_true, if_false, fsKeys, List.map_cons]
      exact congrArg (p.1 :: ·) ih2

theorem fsKeys_fsAdd_of_not_mem {fs : List (String × α)} {k : String} (v : α)
    (h : k ∉ fsKeys fs) : fsKeys (fsAdd fs k v) = fsKeys fs ++ [k] := by
  induction fs with
  | nil => simp [fsAdd, fsKeys]
  | cons p ps ih =>
    have hk : ¬(p.1 = k) := by
      intro hc
      exact h (by simp [fsKeys, hc])
    have hmem : k ∉ fsKeys ps := by
      intro hc
      exact h (by simp only [fsKeys, List.map_cons]; exact List.mem_cons_of_mem _ hc)
    have hbeq : (p.1 == k) = false := by simp [hk]
    have ih2 := ih hmem
    simp only [fsAdd, hbeq, Bool.false_eq_true, if_false, fsKeys, List.map_cons,
      List.cons_append]
    exact congrArg (p.1 :: ·) ih2

theorem fsLookup_fsAdd_self (fs : List (String × α)) (k : String) (v : α) :
    fsLookup (fsAdd fs k v) k = some v := by
  induction fs with
  | nil => simp [fsAdd, fsLookup, List.find?]
  | cons p ps ih =>
    by_cases hk : p.1 = k
    · simp [fsAdd, hk, fsLookup, List.find?]
    · have hbeq : (p.1 == k) = false := by simp [hk]
      simp [fsAdd, hbeq, fsLookup, List.find?] at ih ⊢
      exact ih

theorem mem_fsKeys_fsAdd (fs : List (String × α)) (k : String) (v : α) :
    k ∈ fsKeys (fsAdd fs k v) := by
  by_cases h : k ∈ fsKeys fs
  · rw [fsKeys_fsAdd_of_mem v h]; exact h
  · rw [fsKeys_fsAdd_of_not_mem v h]; simp

theorem nodup_fsKeys_fsAdd {fs : List (String × α)} (k : String) (v : α)
    (h : (fsKeys fs).Nodup) : (fsKeys (fsAdd fs k v)).Nodup := by
  by_cases hm : k ∈ fsKeys fs
  · rw [fsKeys_fsAdd_of_mem v hm]; exact h
  · rw [fsKeys_fsAdd_of_not_mem v hm]
    simpa using List.Nodup.append h (by simp) (by simpa using hm)

theorem nodup_fsKeys_fsRemove {fs : List (String × α)} (k : String)
    (h : (fsKeys fs).Nodup) : (fsKeys (fsRemove fs k)).Nodup := by
  have hsub : List.Sublist (fsRemove fs k) fs := List.filter_sublist fs
  exact (hsub.map Prod.fst).nodup h

theorem nodup_fsKeys_fsApply (ops : List (FeatureOp α)) (fs : List (String × α))
    (h : (fsKeys fs).Nodup) : (fsKeys (fsApply fs ops)).Nodup := by
  induction ops generalizing fs with
  | nil => exact h
  | cons op ops ih =>
    cases op with
    | add k v => exact ih _ (nodup_fsKeys_fsAdd k v h)
    | remove k => exact ih _ (nodup_fsKeys_fsRemove k h)

theorem fsCountKey_eq_count (fs : List (String × α)) (k : String) :
    fsCountKey fs k = (fsKeys fs).count k := by
  induction fs with
  | nil => rfl
  | cons p ps ih =>
    by_cases h : p.1 = k <;>
      simp [fsCountKey, fsKeys, List.countP_cons, List.count_cons, h] at ih ⊢ <;>
      omega

theorem fsCountKey_le_one_of_nodup {fs : List (String × α)} (k : String)
    (h : (fsKeys fs).Nodup) : fsCountKey fs k ≤ 1 := by
  rw [fsCountKey_eq_count]
  exact List.nodup_iff_count_le_one.mp h k

/-- C1: for every feature registry and key X, after any sequence of
Add/Remove operations the registry contains at most one entry for X; an Add
with an existing key replaces in place, preserving the iteration position
(the key sequence is unchanged), and a subsequent List returns exactly one
entry for X carrying the most recently added descriptor. -/
theorem featureRegistry_unique_replace {α : Type} (ops : List (FeatureOp α))
    (X : String) (v : α)
    (hmem : X ∈ fsKeys (fsApply ([] : List (String × α)) ops)) :
    fsCountKey (fsApply ([] : List (String × α)) ops) X ≤ 1 ∧
    fsKeys (fsAdd (fsApply ([] : List (String × α)) ops) X v)
      = fsKeys (fsApply ([] : List (String × α)) ops) ∧
    fsLookup (fsAdd (fsApply ([] : List (String × α)) ops) X v) X = some v ∧
    fsCountKey (fsAdd (fsApply ([] : List (String × α)) ops) X v) X = 1 := by
  have hnd : (fsKeys (fsApply ([] : List (String × α)) ops)).Nodup :=
    nodup_fsKeys_fsApply ops [] (by simp [fsKeys])
  have hnd2 : (fsKeys (fsAdd (fsApply ([] : List (String × α)) ops) X v)).Nodup :=
    nodup_fsKeys_fsAdd X v hnd
  refine ⟨fsCountKey_le_one_of_nodup X hnd, fsKeys_fsAdd_of_mem v hmem,
    fsLookup_fsAdd_self _ X v, ?_⟩
  rw [fsCountKey_eq_count]
  exact List.count_eq_one_of_mem hnd2 (mem_fsKeys_fsAdd _ X v)

/-- Witness for C1 at a concrete operation sequence: add dup/first, add
dup/second, remove other. -/
theorem featureRegistry_unique_replace_witness :
    "dup" ∈ fsKeys (fsApply ([] : List (String × String))
      [FeatureOp.add "dup" "first", FeatureOp.add "other" "x",
       FeatureOp.add "dup" "second", FeatureOp.remove "other"]) ∧
    (fsCountKey (fsApply ([] : List (String × String))
      [FeatureOp.add "dup" "first", FeatureOp.add "other" "x",
       FeatureOp.add "dup" "second", FeatureOp.remove "other"]) "dup" ≤ 1 ∧
     fsKeys (fsAdd (fsApply ([] : List (String × String))
      [FeatureOp.add "dup" "first", FeatureOp.add "other" "x",
       FeatureOp.add "dup" "second", FeatureOp.remove "other"]) "dup" "third")
       = fsKeys (fsApply ([] : List (String × String))
      [FeatureOp.add "dup" "first", FeatureOp.add "other" "x",
       FeatureOp.add "dup" "second", FeatureOp.remove "other"]) ∧
     fsLookup (fsAdd (fsApply ([] : List (String × String))
      [FeatureOp.add "dup" "first", FeatureOp.add "other" "x",
       FeatureOp.add "dup" "second", FeatureOp.remove "other"]) "dup" "third") "dup"
       = some "third" ∧
     fsCountKey (fsAdd (fsApply ([] : List (String × String))
      [FeatureOp.add "dup" "first", FeatureOp.add "other" "x",
       FeatureOp.add "dup" "second", FeatureOp.remove "other"]) "dup" "third") "dup" = 1) :=
  ⟨by decide, featureRegistry_unique_replace _ "dup" "third" (by decide)⟩

/-! ## JSON-RPC error model and tool dispatch -/

/-- A JSON-RPC protocol error, as carried on the wire. -/
structure JSONRPCError where
  code : Int
  message : String
deriving DecidableEq

/-- JSON-RPC code for method not found. -/
def codeMethodNotFound : Int := -32601

/-- JSON-RPC code for invalid params. -/
def codeInvalidParams : Int := -32602

/-- JSON-RPC code for an invalid request. -/
def codeInvalidRequest : Int := -32600

/-- Content of a tool result; only the text variant is needed here. -/
inductive Content where
  | text (s : String)
deriving DecidableEq

/-- Result of a tools/call, as returned in a successful RPC response. -/
structure CallToolResult where
  isError : Bool
  content : List Content
deriving DecidableEq

/-- A registered tool: its name and optional output schema. -/
structure ToolDef (σ : Type) where
  name : String
  outputSchema : Option σ
deriving DecidableEq

/-- Outcome of running a tool handler: either a user (business) error, or a
success carrying the declared result and optional structured output. -/
inductive ToolHandlerOutcome (ω : Type) where
  | userError (msg : String)
  | success (res : CallToolResult) (structured : Option ω)

/-- Modelled from the spec: the tools/call dispatch path is missing from the
source tree (only its tests are present).  Look the tool up by name; if
missing, fail with method-not-found.  If the handler returns a user error,
embed it in a CallToolResult with isError true and the error text as content,
and return a successful RPC response.  If the tool declares an output schema
and the structured output fails validation, return a JSON-RPC error. -/
def callTool {σ ω : Type} (tools : List (String × ToolDef σ)) (name : String)
    (run : ToolHandlerOutcome ω) (valid : σ → ω → Bool) :
    Except JSONRPCError CallToolResult :=
  match fsLookup tools name with
  | none => Except.error ⟨codeMethodNotFound, "unknown tool: " ++ name⟩
  | some t =>
    match run with
    | ToolHandlerOutcome.userError msg =>
      Except.ok { isError := true, content := [Content.text msg] }
    | ToolHandlerOutcome.success res structured =>
      match t.outputSchema, structured with
      | some sch, some v =>
        if valid sch v then Except.ok res
        else Except.error ⟨codeInvalidParams,
          "structured output does not conform to output schema"⟩
      | some _, none =>
        Except.error ⟨codeInvalidParams, "missing structured output"⟩
      | none, _ => Except.ok res

/-- C2: for a registered tool, a user error from the handler is embedded in a
successful RPC response as CallToolResult with isError true and the error text
as content; a structured output failing validation against a declared output
schema instead yields a JSON-RPC error, not a tool error. -/
theorem toolCall_error_embedding {σ ω : Type} (tools : List (String × ToolDef σ))
    (name msg : String) (t : ToolDef σ) (res : CallToolResult) (v : ω)
    (sch : σ) (valid : σ → ω → Bool)
    (hreg : fsLookup tools name = some t)
    (hsch : t.outputSchema = some sch)
    (hval : valid sch v = false) :
    callTool tools name (ToolHandlerOutcome.userError msg) valid
      = Except.ok { isError := true, content := [Content.text msg] } ∧
    callTool tools name (ToolHandlerOutcome.success res (some v)) valid
      = Except.error ⟨codeInvalidParams,
          "structured output does not conform to output schema"⟩ := by
  constructor
  · simp [callTool, hreg]
  · simp [callTool, hreg, hsch, hval]

/-- Witness for C2 at a concrete registry: one tool with an output schema and
a validator that rejects its structured output. -/
theorem toolCall_error_embedding_witness :
    (fsLookup [("t", (⟨"t", some "s"⟩ : ToolDef String))] "t" = some ⟨"t", some "s"⟩ ∧
     (⟨"t", some "s"⟩ : ToolDef String).outputSchema = some "s" ∧
     (fun (_ : String) (_ : String) => false) "s" "x" = false) ∧
    (callTool [("t", (⟨"t", some "s"⟩ : ToolDef String))] "t"
        (ToolHandlerOutcome.userError "boom" : ToolHandlerOutcome String)
        (fun (_ : String) (_ : String) => false)
      = Except.ok { isError := true, content := [Content.text "boom"] } ∧
     callTool [("t", (⟨"t", some "s"⟩ : ToolDef String))] "t"
        (ToolHandlerOutcome.success { isError := false, content := [] }
          (some "x") : ToolHandlerOutcome String)
        (fun (_ : String) (_ : String) => false)
      = Except.error ⟨codeInvalidParams,
          "structured output does not conform to output schema"⟩) :=
  ⟨⟨by decide, by decide, by decide⟩,
   toolCall_error_embedding [("t", (⟨"t", some "s"⟩ : ToolDef String))] "t" "boom"
     ⟨"t", some "s"⟩ { isError := false, content := [] } "x" "s"
     (fun (_ : String) (_ : String) => false) (by decide) (by decide) (by decide)⟩

/-! ## Session initialization gate -/

/-- Lifecycle state of a session, as in the data model of the spec. -/
inductive SessionPhase where
  | connecting
  | connected
  | initialised
  | closing
  | closed
deriving DecidableEq

/-- A phase is before initialization is complete: the initialize request and
the initialized notification have not both been received. -/
def preInit : SessionPhase → Bool
  | SessionPhase.connecting => true
  | SessionPhase.connected => true
  | _ => false

/-- Modelled from the spec: the session state machine implementation is
missing from the source tree.  Until Initialised, the server rejects any
request whose method is not initialize or ping with an initialization error
(a JSON-RPC error); in the Initialised phase the request is dispatched. -/
def gateIncomingRequest (phase : SessionPhase) (method : String) :
    Except JSONRPCError Unit :=
  if preInit phase ∧ method ≠ "initialize" ∧ method ≠ "ping" then
    Except.error ⟨codeInvalidRequest,
      "method " ++ method ++ " is invalid during session initialization"⟩
  else Except.ok ()

/-- C7: in every pre-initialization phase, every request whose method is not
initialize or ping is answered with a JSON-RPC initialization error, never a
successful result. -/
theorem preInit_requests_rejected (phase : SessionPhase) (method : String)
    (hphase : preInit phase = true)
    (hm1 : method ≠ "initialize") (hm2 : method ≠ "ping") :
    gateIncomingRequest phase method
      = Except.error ⟨codeInvalidRequest,
          "method " ++ method ++ " is invalid during session initialization"⟩ := by
  simp [gateIncomingRequest, hphase, hm1, hm2]

/-- Witness for C7: tools/call in the connecting phase is rejected. -/
theorem preInit_requests_rejected_witness :
    (preInit SessionPhase.connecting = true ∧ "tools/call" ≠ "initialize" ∧
      "tools/call" ≠ "ping") ∧
    gateIncomingRequest SessionPhase.connecting "tools/call"
      = Except.error ⟨codeInvalidRequest,
          "method " ++ "tools/call" ++ " is invalid during session initialization"⟩ :=
  ⟨⟨by decide, by decide, by decide⟩,
   preInit_requests_rejected SessionPhase.connecting "tools/call"
     (by decide) (by decide) (by decide)⟩

/-! ## JSON-RPC batching by protocol version -/

/-- Protocol version 2024-11-05. -/
def protocolVersion20241105 : String := "2024-11-05"

/-- Protocol version 2025-03-26, the last version supporting batches. -/
def protocolVersion20250326 : String := "2025-03-26"

/-- Protocol version 2025-06-18, the first version rejecting batches. -/
def protocolVersion20250618 : String := "2025-06-18"

/-- Lexicographic strict order on character lists, by code point. -/
def charListLt : List Char → List Char → Bool
  | [], [] => false
  | [], _ :: _ => true
  | _ :: _, [] => false
  | a :: as, b :: bs =>
    if a.toNat < b.toNat then true
    else if b.toNat < a.toNat then false
    else charListLt as bs

/-- Lexicographic strict order on version strings. -/
def versionLt (a b : String) : Bool := charListLt a.data b.data

/-- Lexicographic order on version strings. -/
def versionLE (a b : String) : Bool := !(versionLt b a)

/-- The protocol versions a session can negotiate. -/
def supportedProtocolVersions : List String :=
  [protocolVersion20241105, protocolVersion20250326, protocolVersion20250618]

/-- Modelled from the spec: the ioConn implementation is missing from the
source tree (only its tests are present).  Batching is supported exactly when
the negotiated protocol version predates 2025-06-18; version strings are
dates, compared lexicographically, and an unset version supports batches. -/
def supportsBatching (v : String) : Bool := versionLt v protocolVersion20250618

/-- An incoming top-level wire value: a single message or a batch array. -/
inductive WireMsg (μ : Type) where
  | single (m : μ)
  | batch (ms : List μ)

/-- Modelled from the spec: reading a wire value yields its messages for
processing, or a protocol error for a batch on 2025-06-18 and later. -/
def ioConnRead (v : String) (w : WireMsg μ) : Except String (List μ) :=
  match w with
  | WireMsg.single m => Except.ok [m]
  | WireMsg.batch ms =>
    if supportsBatching v then Except.ok ms
    else Except.error
      ("JSON-RPC batching is not supported in 2025-06-18 and later (request version: "
        ++ v ++ ")")

/-- Modelled from the spec: the streamable HTTP POST handler surfaces a read
error as status 400 with the error text as body, and processes the messages
otherwise (status 200). -/
def handleWirePost (v : String) (w : WireMsg μ) : Nat × String :=
  match ioConnRead v w with
  | Except.ok _ => (200, "")
  | Except.error e => (400, e)

theorem stringAppend_assoc (a b c : String) : a ++ b ++ c = a ++ (b ++ c) :=
  String.ext (by simp [String.data_append])

/-- C4: a top-level batch is accepted, with each contained message processed,
when the negotiated protocol version is 2025-03-26 or earlier, and rejected
from 2025-06-18 on with HTTP status 400 and a body containing the word batch. -/
theorem batch_acceptance_by_version {μ : Type} (vold vnew : String) (ms : List μ)
    (hvo : vold ∈ supportedProtocolVersions)
    (hvn : vnew ∈ supportedProtocolVersions)
    (hold : versionLE vold protocolVersion20250326 = true)
    (hnew : versionLE protocolVersion20250618 vnew = true) :
    ioConnRead vold (WireMsg.batch ms) = Except.ok ms ∧
    (handleWirePost vnew (WireMsg.batch ms)).1 = 400 ∧
    (∃ pre post, (handleWirePost vnew (WireMsg.batch ms)).2
      = pre ++ "batch" ++ post) := by
  have hso : supportsBatching vold = true := by
    rcases (by simpa [supportedProtocolVersions] using hvo :
        vold = protocolVersion20241105 ∨ vold = protocolVersion20250326 ∨
          vold = protocolVersion20250618) with h | h | h <;> subst h
    · decide
    · decide
    · exact absurd hold (by decide)
  have hsn : supportsBatching vnew = false := by
    rcases (by simpa [supportedProtocolVersions] using hvn :
        vnew = protocolVersion20241105 ∨ vnew = protocolVersion20250326 ∨
          vnew = protocolVersion20250618) with h | h | h <;> subst h
    · exact absurd hnew (by decide)
    · exact absurd hnew (by decide)
    · decide
  refine ⟨?_, ?_, ?_⟩
  · simp [ioConnRead, hso]
  · simp [handleWirePost, ioConnRead, hsn]
  · refine ⟨"JSON-RPC ",
      "ing is not supported in 2025-06-18 and later (request version: "
        ++ vnew ++ ")", ?_⟩
    simp only [handleWirePost, ioConnRead, hsn, Bool.false_eq_true, if_false]
    rw [show ("JSON-RPC batching is not supported in 2025-06-18 and later (request version: "
        : String)
      = "JSON-RPC " ++ "batch" ++ "ing is not supported in 2025-06-18 and later (request version: "
      from rfl]
    apply String.ext
    simp [String.data_append]

/-- Witness for C4 at the concrete versions from the test table. -/
theorem batch_acceptance_by_version_witness :
    (protocolVersion20241105 ∈ supportedProtocolVersions ∧
     protocolVersion20250618 ∈ supportedProtocolVersions ∧
     versionLE protocolVersion20241105 protocolVersion20250326 = true ∧
     versionLE protocolVersion20250618 protocolVersion20250618 = true) ∧
    (ioConnRead protocolVersion20241105 (WireMsg.batch [1, 2]) = Except.ok [1, 2] ∧
     (handleWirePost protocolVersion20250618 (WireMsg.batch [1, 2])).1 = 400 ∧
     (∃ pre post, (handleWirePost protocolVersion20250618 (WireMsg.batch [1, 2])).2
        = pre ++ "batch" ++ post)) :=
  ⟨⟨by decide, by decide, by decide, by decide⟩,
   batch_acceptance_by_version protocolVersion20241105 protocolVersion20250618 [1, 2]
     (by decide) (by decide) (by decide) (by decide)⟩

/-! ## Ordering on the streamable POST stream -/

/-- An item observed on the SSE stream that a POST opened. -/
inductive StreamItem (μ : Type) where
  | message (m : μ)
  | response (r : μ)
  | streamClosed
deriving DecidableEq

/-- An event of the caller activity handling a POSTed request: the handler
sends a message on the request context, or completes and the engine emits the
response. -/
inductive PostAction (μ : Type) where
  | send (m : μ)
  | finish (r : μ)

/-- State of the SSE channel belonging to one POST: the items written so far,
the number of responses still owed, and whether the stream has closed. -/
structure PostStreamState (μ : Type) where
  written : List (StreamItem μ)
  pending : Nat
  closed : Bool

/-- Modelled from the spec: the streamable HTTP server transport is missing
from the source tree (only its tests are present).  Each write of the caller
activity is synchronous up to the transport flush, so it appends to the POST
stream in program order; a completed request appends its response, and once
all in-batch responses have gone out the stream is closed.  Writes after the
close go to the background channel, not to this stream. -/
def stepPost (s : PostStreamState μ) (a : PostAction μ) : PostStreamState μ :=
  if s.closed then s
  else
    match a with
    | PostAction.send m => { s with written := s.written ++ [StreamItem.message m] }
    | PostAction.finish r =>
      if s.pending ≤ 1 then
        { written := s.written ++ [StreamItem.response r, StreamItem.streamClosed],
          pending := 0, closed := true }
      else
        { written := s.written ++ [StreamItem.response r],
          pending := s.pending - 1, closed := s.closed }

/-- Run the caller activity of a POST carrying n requests against a fresh
stream. -/
def runPost (n : Nat) (as : List (PostAction μ)) : PostStreamState μ :=
  as.foldl stepPost { written := [], pending := n, closed := false }

theorem foldl_stepPost_sends (msgs : List μ) (s : PostStreamState μ)
    (h : s.closed = false) :
    List.foldl stepPost s (msgs.map PostAction.send)
      = { s with written := s.written ++ msgs.map StreamItem.message } := by
  induction msgs generalizing s with
  | nil => simp
  | cons m ms ih =>
    simp only [List.map_cons, List.foldl_cons]
    rw [show stepPost s (PostAction.send m)
        = { s with written := s.written ++ [StreamItem.message m] } by
      simp [stepPost, h]]
    rw [ih _ (by simp [h])]
    simp

/-- C3: a notification sent by the handler of a POSTed request is observed on
the SSE stream of that POST before every later item of the same caller activity:
the stream carries exactly the handler messages in program order, then the
response, and the stream is closed immediately after the response. -/
theorem postStream_order (msgs : List μ) (r : μ) :
    (runPost 1 (msgs.map PostAction.send ++ [PostAction.finish r])).written
      = msgs.map StreamItem.message
          ++ [StreamItem.response r, StreamItem.streamClosed] := by
  unfold runPost
  rw [List.foldl_append, foldl_stepPost_sends msgs _ rfl]
  simp [stepPost]

/-! ## SSE event ids -/

/-- Little-endian decimal digits of a number, with explicit fuel so that the
recursion is structural. -/
def natDigitsAux : Nat → Nat → List Nat
  | _, 0 => []
  | 0, _ + 1 => []
  | fuel + 1, n + 1 => (n + 1) % 10 :: natDigitsAux fuel ((n + 1) / 10)

/-- Decimal rendering of a non-negative integer, most significant digit
first, as produced by an integer-to-string conversion. -/
def natToString (n : Nat) : String :=
  String.mk (if n = 0 then ['0'] else ((natDigitsAux n n).map Nat.digitChar).reverse)

/-- Modelled from the spec: the event id implementation is missing from the
source tree (only its tests are present).  An event id is the lossless
serialisation of a stream id and a per-stream index, joined by an
underscore. -/
def formatEventID (sid : String) (idx : Nat) : String :=
  sid ++ "_" ++ natToString idx

/-- Split a character list at its first underscore, returning the parts
before and after it, or nothing when no underscore occurs. -/
def breakRev : List Char → Option (List Char × List Char)
  | [] => none
  | c :: cs =>
    if c = '_' then some ([], cs)
    else
      match breakRev cs with
      | none => none
      | some (a, b) => some (c :: a, b)

/-- Numeric value of a decimal digit character. -/
def digitVal (c : Char) : Nat := c.toNat - 48

/-- Parse a non-empty all-digit character list as a decimal number. -/
def parseNatDigits (cs : List Char) : Option Nat :=
  if cs.isEmpty then none
  else if cs.all Char.isDigit then
    some (Nat.ofDigits 10 (cs.reverse.map digitVal))
  else none

/-- Modelled from the spec: parsing an event id splits at the last
underscore; the suffix must be a non-negative decimal index and the prefix is
the stream id.  Malformed ids are rejected. -/
def parseEventID (s : String) : Option (String × Nat) :=
  match breakRev s.data.reverse with
  | none => none
  | some (ridx, rsid) =>
    match parseNatDigits ridx.reverse with
    | none => none
    | some n => some (String.mk rsid.reverse, n)

theorem natDigitsAux_eq (fuel : Nat) : ∀ n, n ≤ fuel → natDigitsAux fuel n = Nat.digits 10 n := by
  induction fuel with
  | zero =>
    intro n hn
    interval_cases n
    simp [natDigitsAux]
  | succ fuel ih =>
    intro n hn
    match n with
    | 0 => simp [natDigitsAux]
    | m + 1 =>
      rw [show natDigitsAux (fuel + 1) (m + 1)
          = (m + 1) % 10 :: natDigitsAux fuel ((m + 1) / 10) from rfl]
      rw [Nat.digits_def' (by norm_num : 1 < 10) (Nat.succ_pos m)]
      have hle : (m + 1) / 10 ≤ fuel := by
        have := Nat.div_lt_self (Nat.succ_pos m) (by norm_num : 1 < 10)
        omega
      rw [ih _ hle]

theorem digitVal_digitChar {d : Nat} (h : d < 10) : digitVal (Nat.digitChar d) = d := by
  interval_cases d <;> decide

theorem isDigit_digitChar {d : Nat} (h : d < 10) : (Nat.digitChar d).isDigit = true := by
  interval_cases d <;> decide

theorem digitChar_ne_underscore {d : Nat} (h : d < 10) : Nat.digitChar d ≠ '_' := by
  interval_cases d <;> decide

theorem isDigit_ne_underscore {c : Char} (h : c.isDigit = true) : c ≠ '_' := by
  intro hc
  subst hc
  simp [Char.isDigit] at h

theorem natToString_all_digits (n : Nat) :
    ∀ c ∈ (natToString n).data, c.isDigit = true := by
  intro c hc
  unfold natToString at hc
  by_cases h0 : n = 0
  · simp [h0] at hc
    subst hc
    decide
  · simp only [h0, if_false] at hc
    rw [natDigitsAux_eq n n (le_refl n)] at hc
    rcases List.mem_reverse.mp hc with hm
    rcases List.mem_map.mp hm with ⟨d, hd, rfl⟩
    exact isDigit_digitChar (Nat.digits_lt_base (by norm_num) hd)

theorem natToString_ne_nil (n : Nat) : (natToString n).data ≠ [] := by
  unfold natToString
  by_cases h0 : n = 0
  · simp [h0]
  · simp only [h0, if_false]
    simp only [ne_eq, List.reverse_eq_nil_iff, List.map_eq_nil_iff]
    rw [natDigitsAux_eq n n (le_refl n)]
    exact Nat.digits_ne_nil_iff_ne_zero.mpr h0

theorem parseNatDigits_natToString (n : Nat) :
    parseNatDigits (natToString n).data = some n := by
  have hall : (natToString n).data.all Char.isDigit = true :=
    List.all_eq_true.mpr (fun c hc => natToString_all_digits n c hc)
  unfold parseNatDigits
  rw [if_neg (by simpa [List.isEmpty_iff] using natToString_ne_nil n), if_pos hall]
  unfold natToString
  by_cases h0 : n = 0
  · simp [h0, digitVal, Nat.ofDigits]
  · simp only [h0, if_false, String.data]
    rw [List.reverse_reverse, List.map_map]
    rw [natDigitsAux_eq n n (le_refl n)]
    rw [List.map_congr_left (fun d hd => by
      exact digitVal_digitChar (Nat.digits_lt_base (by norm_num) hd))]
    simp [Nat.ofDigits_digits]

theorem breakRev_append (l rest : List Char) (h : ∀ c ∈ l, c ≠ '_') :
    breakRev (l ++ '_' :: rest) = some (l, rest) := by
  induction l with
  | nil => simp [breakRev]
  | cons c cs ih =>
    have hc : c ≠ '_' := h c (List.mem_cons_self c cs)
    have ih2 := ih (fun x hx => h x (List.mem_cons_of_mem c hx))
    simp only [List.cons_append, breakRev, List.append_eq]
    rw [if_neg hc, ih2]

/-- C5: for every stream id without an underscore and every index,
parseEventID inverts formatEventID; and parseEventID rejects each of the
malformed ids from the test set. -/
theorem eventID_roundtrip (sid : String) (idx : Nat)
    (h : ∀ c ∈ sid.data, c ≠ '_') :
    parseEventID (formatEventID sid idx) = some (sid, idx) ∧
    parseEventID "" = none ∧
    parseEventID "_" = none ∧
    parseEventID "1_" = none ∧
    parseEventID "1_a" = none ∧
    parseEventID "1_-1" = none := by
  refine ⟨?_, by decide, by decide, by decide, by decide, by decide⟩
  have hdata : (formatEventID sid idx).data
      = sid.data ++ '_' :: (natToString idx).data := by
    simp [formatEventID, String.data_append]
  have hnotu : ∀ c ∈ (natToString idx).data.reverse, c ≠ '_' := by
    intro c hc
    exact isDigit_ne_underscore
      (natToString_all_digits idx c (List.mem_reverse.mp hc))
  unfold parseEventID
  rw [hdata]
  rw [show (sid.data ++ '_' :: (natToString idx).data).reverse
      = (natToString idx).data.reverse ++ '_' :: sid.data.reverse by
    simp]
  rw [breakRev_append _ _ hnotu]
  simp only [List.reverse_reverse, parseNatDigits_natToString]

/-- Witness for C5 at the concrete pair from the test table. -/
theorem eventID_roundtrip_witness :
    (∀ c ∈ ("1234" : String).data, c ≠ '_') ∧
    (parseEventID (formatEventID "1234" 5678) = some ("1234", 5678) ∧
     parseEventID "" = none ∧
     parseEventID "_" = none ∧
     parseEventID "1_" = none ∧
     parseEventID "1_a" = none ∧
     parseEventID "1_-1" = none) :=
  ⟨by decide, eventID_roundtrip "1234" 5678 (by decide)⟩

/-! ## Elicitation schema validation -/

/-- The enumNames extra field of a property schema: either an array of
strings or some other JSON value. -/
inductive EnumNamesField where
  | strings (ns : List String)
  | notArray
deriving DecidableEq

/-- A direct property of an elicitation schema, with the fields the
normative rules constrain.  hasNested records whether the property carries
nested sub-properties. -/
structure ElicitPropSchema where
  type : String
  hasNested : Bool
  minLength : Option Int
  maxLength : Option Int
  minimum : Option Int
  maximum : Option Int
  enumValues : Option (List String)
  enumNames : Option EnumNamesField
  format : Option String
deriving DecidableEq

/-- A requested elicitation schema: a root type and direct properties. -/
structure ElicitSchema where
  type : String
  properties : List (String × ElicitPropSchema)
deriving DecidableEq

/-- Property types admissible in an elicitation schema. -/
def allowedPropTypes : List String := ["string", "number", "integer", "boolean"]

/-- String formats admissible in an elicitation schema. -/
def allowedFormats : List String := ["email", "uri", "date", "date-time"]

/-- Sequence two validation steps, short-circuiting on the first error. -/
def exceptAnd (a b : Except String Unit) : Except String Unit :=
  match a with
  | Except.error e => Except.error e
  | Except.ok _ => b

def checkNested (nm : String) (p : ElicitPropSchema) : Except String Unit :=
  if p.hasNested then
    Except.error ("elicit schema property " ++ nm
      ++ " contains nested properties, only primitive properties are allowed")
  else Except.ok ()

def checkPropType (nm : String) (p : ElicitPropSchema) : Except String Unit :=
  if p.type ∈ allowedPropTypes then Except.ok ()
  else Except.error ("elicit schema property " ++ nm ++ " has unsupported type "
    ++ p.type ++ ", only string, number, integer, and boolean are allowed")

def checkMinLength (nm : String) (p : ElicitPropSchema) : Except String Unit :=
  match p.minLength with
  | some n =>
    if n < 0 then
      Except.error ("elicit schema property " ++ nm
        ++ " has invalid minLength, must be non-negative")
    else Except.ok ()
  | none => Except.ok ()

def checkMaxLength (nm : String) (p : ElicitPropSchema) : Except String Unit :=
  match p.maxLength with
  | some n =>
    if n < 0 then
      Except.error ("elicit schema property " ++ nm
        ++ " has invalid maxLength, must be non-negative")
    else Except.ok ()
  | none => Except.ok ()

def checkLengthOrder (nm : String) (p : ElicitPropSchema) : Except String Unit :=
  match p.minLength, p.maxLength with
  | some a, some b =>
    if b < a then
      Except.error ("elicit schema property " ++ nm
        ++ " has maxLength less than minLength")
    else Except.ok ()
  | _, _ => Except.ok ()

def checkNumericOrder (nm : String) (p : ElicitPropSchema) : Except String Unit :=
  match p.minimum, p.maximum with
  | some a, some b =>
    if b < a then
      Except.error ("elicit schema property " ++ nm
        ++ " has maximum less than minimum")
    else Except.ok ()
  | _, _ => Except.ok ()

def checkEnumNames (nm : String) (p : ElicitPropSchema) : Except String Unit :=
  match p.enumNames with
  | none => Except.ok ()
  | some EnumNamesField.notArray =>
    Except.error ("elicit schema property " ++ nm
      ++ " has invalid enumNames type, must be an array")
  | some (EnumNamesField.strings ns) =>
    if ns.length = (p.enumValues.getD []).length then Except.ok ()
    else Except.error ("elicit schema property " ++ nm
      ++ " has mismatched enum values and enumNames, they must match")

def checkFormat (nm : String) (p : ElicitPropSchema) : Except String Unit :=
  match p.format with
  | none => Except.ok ()
  | some f =>
    if f ∈ allowedFormats then Except.ok ()
    else Except.error ("elicit schema property " ++ nm ++ " has unsupported format "
      ++ f ++ ", only email, uri, date, and date-time are allowed")

/-- Modelled from the spec: the elicitation schema validator is missing from
the source tree (only its tests are present).  A direct property must not
nest, must have an admissible primitive type, non-negative length bounds in
order, ordered numeric bounds, enumNames (when present) a string array whose
length matches enum, and an admissible string format. -/
def validateElicitProp (nm : String) (p : ElicitPropSchema) : Except String Unit :=
  exceptAnd (checkNested nm p) (exceptAnd (checkPropType nm p)
    (exceptAnd (checkMinLength nm p) (exceptAnd (checkMaxLength nm p)
      (exceptAnd (checkLengthOrder nm p) (exceptAnd (checkNumericOrder nm p)
        (exceptAnd (checkEnumNames nm p) (checkFormat nm p)))))))

/-- Validate every direct property in order. -/
def validateElicitProps : List (String × ElicitPropSchema) → Except String Unit
  | [] => Except.ok ()
  | (nm, p) :: rest => exceptAnd (validateElicitProp nm p) (validateElicitProps rest)

/-- Modelled from the spec: the root schema must have type object, and every
direct property must obey the normative rules. -/
def validateElicitSchema (s : ElicitSchema) : Except String Unit :=
  if s.type = "object" then validateElicitProps s.properties
  else Except.error ("elicit schema must be of type object, got " ++ s.type)

/-- Modelled from the spec: an elicitation call validates the requested
schema before the request is sent; a validation failure surfaces as an
invalid-params error and nothing is sent, otherwise the request goes out
(the ok value models the sent request). -/
def elicit (schema : Option ElicitSchema) : Except JSONRPCError Unit :=
  match schema with
  | none => Except.ok ()
  | some s =>
    match validateElicitSchema s with
    | Except.error m => Except.error ⟨codeInvalidParams, m⟩
    | Except.ok _ => Except.ok ()

/-- The normative rules on one property, stated declaratively. -/
def WellFormedProp (p : ElicitPropSchema) : Prop :=
  p.hasNested = false ∧
  p.type ∈ allowedPropTypes ∧
  (∀ n, p.minLength = some n → 0 ≤ n) ∧
  (∀ n, p.maxLength = some n → 0 ≤ n) ∧
  (∀ a b, p.minLength = some a → p.maxLength = some b → a ≤ b) ∧
  (∀ a b, p.minimum = some a → p.maximum = some b → a ≤ b) ∧
  (∀ e, p.enumNames = some e →
    ∃ ns, e = EnumNamesField.strings ns ∧ ns.length = (p.enumValues.getD []).length) ∧
  (∀ f, p.format = some f → f ∈ allowedFormats)

/-- The normative rules on a requested schema, stated declaratively. -/
def WellFormedElicit : Option ElicitSchema → Prop
  | none => True
  | some s => s.type = "object" ∧ ∀ pr ∈ s.properties, WellFormedProp pr.2

theorem exceptAnd_ok (a b : Except String Unit) :
    exceptAnd a b = Except.ok () ↔ (a = Except.ok () ∧ b = Except.ok ()) := by
  cases a with
  | error e => simp [exceptAnd]
  | ok u => cases u; simp [exceptAnd]

theorem checkNested_ok (nm : String) (p : ElicitPropSchema) :
    checkNested nm p = Except.ok () ↔ p.hasNested = false := by
  cases hn : p.hasNested <;> simp [checkNested, hn]

theorem checkPropType_ok (nm : String) (p : ElicitPropSchema) :
    checkPropType nm p = Except.ok () ↔ p.type ∈ allowedPropTypes := by
  by_cases hm : p.type ∈ allowedPropTypes <;> simp [checkPropType, hm]

theorem checkMinLength_ok (nm : String) (p : ElicitPropSchema) :
    checkMinLength nm p = Except.ok () ↔ (∀ n, p.minLength = some n → 0 ≤ n) := by
  cases hm : p.minLength with
  | none => simp [checkMinLength, hm]
  | some n =>
    by_cases h2 : n < 0 <;> simp [checkMinLength, hm, h2] <;> omega

theorem checkMaxLength_ok (nm : String) (p : ElicitPropSchema) :
    checkMaxLength nm p = Except.ok () ↔ (∀ n, p.maxLength = some n → 0 ≤ n) := by
  cases hm : p.maxLength with
  | none => simp [checkMaxLength, hm]
  | some n =>
    by_cases h2 : n < 0 <;> simp [checkMaxLength, hm, h2] <;> omega

theorem checkLengthOrder_ok (nm : String) (p : ElicitPropSchema) :
    checkLengthOrder nm p = Except.ok ()
      ↔ (∀ a b, p.minLength = some a → p.maxLength = some b → a ≤ b) := by
  cases ha : p.minLength with
  | none => simp [checkLengthOrder, ha]
  | some a =>
    cases hb : p.maxLength with
    | none => simp [checkLengthOrder, ha, hb]
    | some b =>
      by_cases h2 : b < a <;> simp [checkLengthOrder, ha, hb, h2] <;> omega

theorem checkNumericOrder_ok (nm : String) (p : ElicitPropSchema) :
    checkNumericOrder nm p = Except.ok ()
      ↔ (∀ a b, p.minimum = some a → p.maximum = some b → a ≤ b) := by
  cases ha : p.minimum with
  | none => simp [checkNumericOrder, ha]
  | some a =>
    cases hb : p.maximum with
    | none => simp [checkNumericOrder, ha, hb]
    | some b =>
      by_cases h2 : b < a <;> simp [checkNumericOrder, ha, hb, h2] <;> omega

theorem checkEnumNames_ok (nm : String) (p : ElicitPropSchema) :
    checkEnumNames nm p = Except.ok ()
      ↔ (∀ e, p.enumNames = some e →
          ∃ ns, e = EnumNamesField.strings ns
            ∧ ns.length = (p.enumValues.getD []).length) := by
  cases he : p.enumNames with
  | none => simp [checkEnumNames, he]
  | some e =>
    cases e with
    | notArray => simp [checkEnumNames, he]
    | strings ns =>
      by_cases hl : ns.length = (p.enumValues.getD []).length <;>
        simp [checkEnumNames, he, hl]

theorem checkFormat_ok (nm : String) (p : ElicitPropSchema) :
    checkFormat nm p = Except.ok () ↔ (∀ f, p.format = some f → f ∈ allowedFormats) := by
  cases hf : p.format with
  | none => simp [checkFormat, hf]
  | some f =>
    by_cases hm : f ∈ allowedFormats <;> simp [checkFormat, hf, hm]

theorem validateElicitProp_ok (nm : String) (p : ElicitPropSchema) :
    validateElicitProp nm p = Except.ok () ↔ WellFormedProp p := by
  unfold validateElicitProp WellFormedProp
  simp only [exceptAnd_ok, checkNested_ok, checkPropType_ok, checkMinLength_ok,
    checkMaxLength_ok, checkLengthOrder_ok, checkNumericOrder_ok,
    checkEnumNames_ok, checkFormat_ok]

theorem validateElicitProps_ok (l : List (String × ElicitPropSchema)) :
    validateElicitProps l = Except.ok () ↔ (∀ pr ∈ l, WellFormedProp pr.2) := by
  induction l with
  | nil => simp [validateElicitProps]
  | cons pr rest ih =>
    cases pr with
    | mk nm p =>
      simp only [validateElicitProps, exceptAnd_ok, validateElicitProp_ok, ih,
        List.mem_cons]
      constructor
      · rintro ⟨h1, h2⟩ q hq
        rcases hq with rfl | hq
        · exact h1
        · exact h2 q hq
      · intro hq
        exact ⟨hq (nm, p) (Or.inl rfl), fun q hq2 => hq q (Or.inr hq2)⟩

theorem validateElicitSchema_ok (s : ElicitSchema) :
    validateElicitSchema s = Except.ok () ↔ WellFormedElicit (some s) := by
  by_cases ht : s.type = "object" <;>
    simp [validateElicitSchema, ht, WellFormedElicit, validateElicitProps_ok]

/-- C6: the requested elicitation schema is validated before the request is
sent; a schema obeying all the normative rules is sent without error, and
every violation fails with an invalid-params error and nothing is sent. -/
theorem elicit_schema_validation (schema : Option ElicitSchema) :
    (WellFormedElicit schema → elicit schema = Except.ok ()) ∧
    (¬ WellFormedElicit schema →
      ∃ m, elicit schema = Except.error ⟨codeInvalidParams, m⟩) := by
  cases schema with
  | none =>
    constructor
    · intro _
      rfl
    · intro hn
      exact absurd trivial hn
  | some s =>
    constructor
    · intro hw
      simp [elicit, (validateElicitSchema_ok s).mpr hw]
    · intro hnw
      cases hval : validateElicitSchema s with
      | ok u =>
        cases u
        exact absurd ((validateElicitSchema_ok s).mp hval) hnw
      | error m =>
        exact ⟨m, by simp [elicit, hval]⟩

/-- Witness for C6: an empty object schema is sent; a root schema of type
string fails with invalid-params. -/
theorem elicit_schema_validation_witness :
    elicit (some ⟨"object", []⟩) = Except.ok () ∧
    (∃ m, elicit (some ⟨"string", []⟩) = Except.error ⟨codeInvalidParams, m⟩) :=
  ⟨(elicit_schema_validation (some ⟨"object", []⟩)).1 ⟨rfl, by simp⟩,
   (elicit_schema_validation (some ⟨"string", []⟩)).2
     (fun hc => absurd hc.1 (by decide))⟩

/-! ## Stored session info and its JSON serialisation -/

/-- A JSON value. -/
inductive Json where
  | jnull
  | jbool (b : Bool)
  | jnum (n : Int)
  | jstr (s : String)
  | jobj (fields : List (String × Json))

/-- Initialization parameters kept in the session state. -/
structure InitializeParams where
  protocolVersion : String
deriving DecidableEq

/-- Modelled from the spec: the ServerSessionState type referenced by
StoredSessionInfo is missing from the source tree; per the data model it
holds the serialised initialize and initialised params and the log level. -/
structure ServerSessionState where
  initializeParams : Option InitializeParams
  initializedReceived : Bool
  logLevel : String
deriving DecidableEq

/-- Embedded from sessionstore.go: the session data persisted to external
storage: session state, reference count of in-flight POSTs, idle timeout,
and created and last-accessed timestamps.  Durations and times are modelled
as integer nanoseconds. -/
structure StoredSessionInfo where
  sessionState : ServerSessionState
  refs : Int
  timeout : Int
  createdAt : Int
  lastAccessedAt : Int
deriving DecidableEq

def InitializeParams.toJson (p : InitializeParams) : Json :=
  Json.jobj [("protocolVersion", Json.jstr p.protocolVersion)]

def ServerSessionState.toJson (s : ServerSessionState) : Json :=
  Json.jobj [
    ("initializeParams",
      match s.initializeParams with
      | none => Json.jnull
      | some p => InitializeParams.toJson p),
    ("initializedReceived", Json.jbool s.initializedReceived),
    ("logLevel", Json.jstr s.logLevel)]

def ServerSessionState.fromJson : Json → Option ServerSessionState
  | Json.jobj [("initializeParams", ip), ("initializedReceived", Json.jbool b),
      ("logLevel", Json.jstr ll)] =>
    match ip with
    | Json.jnull => some ⟨none, b, ll⟩
    | Json.jobj [("protocolVersion", Json.jstr pv)] => some ⟨some ⟨pv⟩, b, ll⟩
    | _ => none
  | _ => none

def StoredSessionInfo.toJson (i : StoredSessionInfo) : Json :=
  Json.jobj [
    ("sessionState", ServerSessionState.toJson i.sessionState),
    ("refs", Json.jnum i.refs),
    ("timeout", Json.jnum i.timeout),
    ("createdAt", Json.jnum i.createdAt),
    ("lastAccessedAt", Json.jnum i.lastAccessedAt)]

def StoredSessionInfo.fromJson : Json → Option StoredSessionInfo
  | Json.jobj [("sessionState", ss), ("refs", Json.jnum r), ("timeout", Json.jnum t),
      ("createdAt", Json.jnum c), ("lastAccessedAt", Json.jnum l)] =>
    match ServerSessionState.fromJson ss with
    | none => none
    | some st => some ⟨st, r, t, c, l⟩
  | _ => none

/-- C8: StoredSessionInfo is fully JSON-serialisable: every field survives a
JSON marshal followed by an unmarshal unchanged, and the type consists only
of plain data fields, with no timers, locks, or other runtime state. -/
theorem storedSessionInfo_roundtrip (i : StoredSessionInfo) :
    StoredSessionInfo.fromJson (StoredSessionInfo.toJson i) = some i := by
  rcases i with ⟨⟨ip, b, ll⟩, r, t, c, l⟩
  cases ip <;> rfl

/-! ## In-memory session store -/

/-- Embedded from sessionstore.go: one stored entry; a missing expiresAt
models the Go zero time, meaning no expiration. -/
structure MemorySessionEntry where
  info : StoredSessionInfo
  expiresAt : Option Nat
deriving DecidableEq

/-- The sessions map of the store. -/
def SessionMap : Type := String → Option MemorySessionEntry

/-- Point update of the sessions map. -/
def storeUpdate (m : SessionMap) (sid : String) (e : Option MemorySessionEntry) :
    SessionMap :=
  fun s => if s = sid then e else m s

/-- Embedded from sessionstore.go: an entry is expired when it has an
expiration time strictly before the current time. -/
def entryExpired (now : Nat) (e : MemorySessionEntry) : Bool :=
  match e.expiresAt with
  | none => false
  | some t => decide (t < now)

/-- The error returned when a session is not found in the store. -/
def ErrSessionNotFound : String := "session not found"

/-- Embedded from sessionstore.go: Get returns the stored info, or
ErrSessionNotFound when the entry is missing or expired. -/
def Get (m : SessionMap) (now : Nat) (sid : String) :
    Except String StoredSessionInfo :=
  match m sid with
  | none => Except.error ErrSessionNotFound
  | some e =>
    if entryExpired now e then Except.error ErrSessionNotFound
    else Except.ok e.info

/-- Embedded from sessionstore.go: Put stores a copy of the info, expiring
at now + ttl when ttl is positive and never otherwise. -/
def Put (m : SessionMap) (now : Nat) (sid : String) (info : StoredSessionInfo)
    (ttl : Int) : SessionMap :=
  storeUpdate m sid (some ⟨info, if 0 < ttl then some (now + ttl.toNat) else none⟩)

/-- Embedded from sessionstore.go: UpdateRefs adds delta to the reference
count, clamps a negative result to zero, stores the clamped value, and
returns it; a missing or expired entry yields ErrSessionNotFound. -/
def UpdateRefs (m : SessionMap) (now : Nat) (sid : String) (delta : Int) :
    Except String (Int × SessionMap) :=
  match m sid with
  | none => Except.error ErrSessionNotFound
  | some e =>
    if entryExpired now e then Except.error ErrSessionNotFound
    else
      let r := if e.info.refs + delta < 0 then 0 else e.info.refs + delta
      Except.ok (r, storeUpdate m sid (some ⟨{ e.info with refs := r }, e.expiresAt⟩))

/-- Embedded from sessionstore.go: RefreshTTL resets the expiration to
now + ttl for positive ttl and clears it otherwise; a missing or expired
entry yields ErrSessionNotFound. -/
def RefreshTTL (m : SessionMap) (now : Nat) (sid : String) (ttl : Int) :
    Except String SessionMap :=
  match m sid with
  | none => Except.error ErrSessionNotFound
  | some e =>
    if entryExpired now e then Except.error ErrSessionNotFound
    else Except.ok (storeUpdate m sid
      (some ⟨e.info, if 0 < ttl then some (now + ttl.toNat) else none⟩))

/-- Embedded from sessionstore.go: the periodic cleanup removes every
expired entry. -/
def cleanup (m : SessionMap) (now : Nat) : SessionMap :=
  fun s =>
    match m s with
    | none => none
    | some e => if entryExpired now e then none else some e

/-- Apply a sequence of UpdateRefs calls (time stamp and delta each) to the
store, ignoring failed calls. -/
def applyUpdateRefs (sid : String) : List (Nat × Int) → SessionMap → SessionMap
  | [], m => m
  | (now, delta) :: rest, m =>
    match UpdateRefs m now sid delta with
    | Except.error _ => applyUpdateRefs sid rest m
    | Except.ok (_, m2) => applyUpdateRefs sid rest m2

/-- The stored reference count of a session is non-negative (or the session
is absent). -/
def refsNonneg (m : SessionMap) (sid : String) : Bool :=
  match m sid with
  | none => true
  | some e => decide (0 ≤ e.info.refs)

theorem storeUpdate_self (m : SessionMap) (sid : String)
    (e : Option MemorySessionEntry) : storeUpdate m sid e sid = e := by
  simp [storeUpdate]

theorem refsNonneg_updateRefs {m m2 : SessionMap} {now : Nat} {sid : String}
    {delta r : Int} (h : UpdateRefs m now sid delta = Except.ok (r, m2)) :
    refsNonneg m2 sid = true := by
  unfold UpdateRefs at h
  cases hm : m sid with
  | none => rw [hm] at h; simp at h
  | some e =>
    rw [hm] at h
    by_cases hex : entryExpired now e = true
    · simp [hex] at h
    · simp only [hex, Bool.false_eq_true, if_false, Except.ok.injEq,
        Prod.mk.injEq] at h
      rcases h with ⟨hr, hm2⟩
      subst hm2
      unfold refsNonneg
      rw [storeUpdate_self]
      simp only [decide_eq_true_eq]
      omega

theorem refsNonneg_applyUpdateRefs (sid : String) (ops : List (Nat × Int)) :
    ∀ m : SessionMap, refsNonneg m sid = true →
      refsNonneg (applyUpdateRefs sid ops m) sid = true := by
  induction ops with
  | nil => intro m h; exact h
  | cons op rest ih =>
    intro m h
    cases op with
    | mk now delta =>
      unfold applyUpdateRefs
      cases hu : UpdateRefs m now sid delta with
      | error e => exact ih m h
      | ok p =>
        cases p with
        | mk r m2 => exact ih m2 (refsNonneg_updateRefs hu)

/-- C9: after any sequence of UpdateRefs calls with arbitrary deltas, the
stored reference count is never negative; a further call succeeds on an
unexpired entry, clamps a decrement below zero to zero, and returns exactly
the clamped value that it stores. -/
theorem updateRefs_clamped (m : SessionMap) (sid : String) (ops : List (Nat × Int))
    (now : Nat) (delta : Int) (e : MemorySessionEntry)
    (hinv : refsNonneg m sid = true)
    (he : applyUpdateRefs sid ops m sid = some e)
    (hexp : entryExpired now e = false) :
    0 ≤ e.info.refs ∧
    (∃ r m2, UpdateRefs (applyUpdateRefs sid ops m) now sid delta
        = Except.ok (r, m2) ∧
      r = (if e.info.refs + delta < 0 then 0 else e.info.refs + delta) ∧
      0 ≤ r ∧
      m2 sid = some ⟨{ e.info with refs := r }, e.expiresAt⟩) := by
  have hn := refsNonneg_applyUpdateRefs sid ops m hinv
  unfold refsNonneg at hn
  rw [he] at hn
  simp only [decide_eq_true_eq] at hn
  refine ⟨hn, ?_⟩
  refine ⟨if e.info.refs + delta < 0 then 0 else e.info.refs + delta,
    storeUpdate (applyUpdateRefs sid ops m) sid
      (some ⟨{ e.info with refs :=
        if e.info.refs + delta < 0 then 0 else e.info.refs + delta }, e.expiresAt⟩),
    ?_, rfl, ?_, ?_⟩
  · unfold UpdateRefs
    rw [he]
    simp [hexp]
  · by_cases hd : e.info.refs + delta < 0
    · simp [hd]
    · simp only [hd, if_false]
      omega
  · rw [storeUpdate_self]

/-- Witness for C9: one session, a decrement below zero then an increment. -/
theorem updateRefs_clamped_witness :
    (refsNonneg (Put (fun _ => none) 0 "s"
        ⟨⟨none, false, "warn"⟩, 0, 0, 0, 0⟩ 0) "s" = true ∧
     applyUpdateRefs "s" [(1, -5), (2, 3)]
        (Put (fun _ => none) 0 "s" ⟨⟨none, false, "warn"⟩, 0, 0, 0, 0⟩ 0) "s"
        = some ⟨⟨⟨none, false, "warn"⟩, 3, 0, 0, 0⟩, none⟩ ∧
     entryExpired 4 ⟨⟨⟨none, false, "warn"⟩, 3, 0, 0, 0⟩, none⟩ = false) ∧
    (0 ≤ (⟨⟨⟨none, false, "warn"⟩, 3, 0, 0, 0⟩, none⟩ :
        MemorySessionEntry).info.refs ∧
     (∃ r m2, UpdateRefs (applyUpdateRefs "s" [(1, -5), (2, 3)]
          (Put (fun _ => none) 0 "s" ⟨⟨none, false, "warn"⟩, 0, 0, 0, 0⟩ 0)) 4 "s" (-1)
        = Except.ok (r, m2) ∧
       r = (if (⟨⟨⟨none, false, "warn"⟩, 3, 0, 0, 0⟩, none⟩ :
          MemorySessionEntry).info.refs + (-1) < 0 then 0
         else (⟨⟨⟨none, false, "warn"⟩, 3, 0, 0, 0⟩, none⟩ :
          MemorySessionEntry).info.refs + (-1)) ∧
       0 ≤ r ∧
       m2 "s" = some ⟨{ (⟨⟨⟨none, false, "warn"⟩, 3, 0, 0, 0⟩, none⟩ :
          MemorySessionEntry).info with refs := r },
         (⟨⟨⟨none, false, "warn"⟩, 3, 0, 0, 0⟩, none⟩ :
          MemorySessionEntry).expiresAt⟩)) :=
  ⟨⟨by decide, by decide, by decide⟩,
   updateRefs_clamped (Put (fun _ => none) 0 "s" ⟨⟨none, false, "warn"⟩, 0, 0, 0, 0⟩ 0)
     "s" [(1, -5), (2, 3)] 4 (-1) ⟨⟨⟨none, false, "warn"⟩, 3, 0, 0, 0⟩, none⟩
     (by decide) (by decide) (by decide)⟩

/-- C10: a session stored with a positive TTL whose TTL has elapsed is still
physically present before the cleanup runs, yet Get, UpdateRefs and
RefreshTTL all answer ErrSessionNotFound, and the cleanup removes it; an
expired session is never observable through the public interface. -/
theorem expired_session_not_observable (m : SessionMap) (sid : String)
    (info : StoredSessionInfo) (t0 : Nat) (ttl : Int) (now : Nat)
    (delta ttl2 : Int)
    (httl : 0 < ttl) (hnow : t0 + ttl.toNat < now) :
    Put m t0 sid info ttl sid = some ⟨info, some (t0 + ttl.toNat)⟩ ∧
    Get (Put m t0 sid info ttl) now sid = Except.error ErrSessionNotFound ∧
    UpdateRefs (Put m t0 sid info ttl) now sid delta
      = Except.error ErrSessionNotFound ∧
    RefreshTTL (Put m t0 sid info ttl) now sid ttl2
      = Except.error ErrSessionNotFound ∧
    cleanup (Put m t0 sid info ttl) now sid = none := by
  have h1 : Put m t0 sid info ttl sid = some ⟨info, some (t0 + ttl.toNat)⟩ := by
    unfold Put
    rw [storeUpdate_self, if_pos httl]
  have hex : entryExpired now ⟨info, some (t0 + ttl.toNat)⟩ = true := by
    simp [entryExpired, hnow]
  refine ⟨h1, ?_, ?_, ?_, ?_⟩
  · unfold Get
    rw [h1]
    simp [hex]
  · unfold UpdateRefs
    rw [h1]
    simp [hex]
  · unfold RefreshTTL
    rw [h1]
    simp [hex]
  · unfold cleanup
    rw [h1]
    simp [hex]

/-- Witness for C10 at concrete times: put at 0 with TTL 10, observed at 11. -/
theorem expired_session_not_observable_witness :
    ((0 : Int) < 10 ∧ 0 + (10 : Int).toNat < 11) ∧
    (Put (fun _ => none) 0 "s" ⟨⟨none, false, "warn"⟩, 0, 0, 0, 0⟩ 10 "s"
        = some ⟨⟨⟨none, false, "warn"⟩, 0, 0, 0, 0⟩, some (0 + (10 : Int).toNat)⟩ ∧
     Get (Put (fun _ => none) 0 "s" ⟨⟨none, false, "warn"⟩, 0, 0, 0, 0⟩ 10) 11 "s"
        = Except.error ErrSessionNotFound ∧
     UpdateRefs (Put (fun _ => none) 0 "s" ⟨⟨none, false, "warn"⟩, 0, 0, 0, 0⟩ 10)
        11 "s" 1 = Except.error ErrSessionNotFound ∧
     RefreshTTL (Put (fun _ => none) 0 "s" ⟨⟨none, false, "warn"⟩, 0, 0, 0, 0⟩ 10)
        11 "s" 5 = Except.error ErrSessionNotFound ∧
     cleanup (Put (fun _ => none) 0 "s" ⟨⟨none, false, "warn"⟩, 0, 0, 0, 0⟩ 10)
        11 "s" = none) :=
  ⟨⟨by decide, by decide⟩,
   expired_session_not_observable (fun _ => none) "s"
     ⟨⟨none, false, "warn"⟩, 0, 0, 0, 0⟩ 0 10 11 1 5 (by decide) (by decide)⟩

end MCP
